import Mathlib

/-!
# CryptoBot — verification of the position lifecycle engine

Shallow embedding of the leveraged-futures simulator (`src/store.py`,
`src/coinbase.py`, `src/app.py`).  Python floats are modelled as `ℚ`,
Python ints as `ℤ`, `Optional[x]` as `Option`, and raised exceptions as
`Except` values.  The Coinbase price oracle is passed in explicitly: a
spot lookup is an `Except Unit ℚ` (error = the `ValueError` raised by
`get_price`), and a candle fetch is a function from a chunk window to
`Except Unit (List Candle)` (error = the `ValueError` raised when a
candle request fails).
-/

namespace CryptoBot

/-- `store.Direction`: enum with members LONG and SHORT. -/
inductive Direction where
  | LONG
  | SHORT
deriving DecidableEq, Repr

/-- `store.Position` (also used for pending limit orders).
Fields and optionality follow the Python dataclass. -/
structure Position where
  position_id : Option ℤ
  crypto : String
  side : Direction
  timestamp : Option ℤ
  entry : ℚ
  margin : ℚ
  lev : ℤ
  take_profit : Option ℚ := none
  stop_loss : Option ℚ := none
  tp_timestamp : Option ℤ := none
  stop_timestamp : Option ℤ := none
deriving DecidableEq, Repr

/-- `store.Position.liquidation_price`: `None` when `lev <= 0`, otherwise an
adverse move of `1/lev` from entry (down for LONG, up for SHORT). -/
def Position.liquidation_price (p : Position) : Option ℚ :=
  if p.lev ≤ 0 then none
  else
    let move : ℚ := 1 / (p.lev : ℚ)
    if p.side = Direction.LONG then some (p.entry * (1 - move))
    else some (p.entry * (1 + move))

/-- `store.UserData`: balance plus open positions and pending orders. -/
structure UserData where
  usd : ℚ := 0
  positions : List Position := []
  orders : List Position := []
deriving DecidableEq, Repr

/-- `app._calculate_pnl`: percentage move times margin times leverage,
clamped below at `-margin`. -/
def calculate_pnl (p : Position) (current : ℚ) : ℚ :=
  let pnl_pct : ℚ :=
    if p.side = Direction.LONG then (current - p.entry) / p.entry
    else (p.entry - current) / p.entry
  let pnl := pnl_pct * p.margin * (p.lev : ℚ)
  max pnl (-p.margin)

/-- Decidable equality for `Except`, used to evaluate the embedded
operations on concrete inputs. -/
instance {ε α : Type} [DecidableEq ε] [DecidableEq α] :
    DecidableEq (Except ε α) := fun a b =>
  match a, b with
  | .error e, .error f =>
    if h : e = f then .isTrue (by rw [h])
    else .isFalse (fun hh => by cases hh; exact h rfl)
  | .ok x, .ok y =>
    if h : x = y then .isTrue (by rw [h])
    else .isFalse (fun hh => by cases hh; exact h rfl)
  | .error _, .ok _ => .isFalse (fun hh => by cases hh)
  | .ok _, .error _ => .isFalse (fun hh => by cases hh)

/-- Errors raised (as early returns with a message) by the open branch of
`app.handle_mention`, in the order checked by the code. -/
inductive OpenErr where
  | invalidLeverage
  | invalidMargin
  | limitNotPositive
  | insufficientBalance
  | priceUnavailable
  | invalidLimitPrice
deriving DecidableEq, Repr

/-- Errors surfaced by the close commands of `app.handle_mention`. -/
inductive CloseErr where
  | positionNotFound
  | priceUnavailable
deriving DecidableEq, Repr

/-- The open branch of `app.handle_mention` (lines 210-261): validates
leverage, margin, limit positivity, balance, fetches spot, validates the
limit direction against spot, then debits margin and appends the new
position (spot) or order (limit). -/
def open_position (u : UserData) (crypto : String) (side : Direction)
    (margin : ℚ) (leverage : ℤ) (limit_price : Option ℚ)
    (spot : Except Unit ℚ) (pid now : ℤ) : Except OpenErr (UserData × Position) :=
  if ¬ (1 ≤ leverage ∧ leverage ≤ 50) then .error .invalidLeverage
  else if margin ≤ 0 then .error .invalidMargin
  else if limit_price.any (fun lp => decide (lp ≤ 0)) then
    .error .limitNotPositive
  else if u.usd < margin then .error .insufficientBalance
  else
    match spot with
    | .error _ => .error .priceUnavailable
    | .ok spot_price =>
      match limit_price with
      | some lp =>
        if side = Direction.LONG ∧ spot_price < lp then .error .invalidLimitPrice
        else if side = Direction.SHORT ∧ lp < spot_price then .error .invalidLimitPrice
        else
          let pos : Position :=
            { position_id := some pid, crypto := crypto, side := side,
              timestamp := some now, entry := lp, margin := margin, lev := leverage }
          .ok ({ u with orders := u.orders ++ [pos], usd := u.usd - margin }, pos)
      | none =>
        let pos : Position :=
          { position_id := some pid, crypto := crypto, side := side,
            timestamp := some now, entry := spot_price, margin := margin, lev := leverage }
        .ok ({ u with positions := u.positions ++ [pos], usd := u.usd - margin }, pos)

/-- `app._close_position`: credit `margin + pnl`, drop every position sharing
the closed position's id (Python `!=` on the optional ids). -/
def close_position (u : UserData) (pos : Position) (current_price : ℚ) :
    UserData × ℚ :=
  let pnl := calculate_pnl pos current_price
  ({ u with usd := u.usd + pos.margin + pnl,
            positions := u.positions.filter
              (fun p => decide (p.position_id ≠ pos.position_id)) }, pnl)

/-- The `close POSITION_ID` branch of `app.handle_mention`: find the first
position with that id, fetch spot, settle via `_close_position`. -/
def close_by_id (u : UserData) (target_id : ℤ) (spot : Except Unit ℚ) :
    Except CloseErr (UserData × ℚ) :=
  match u.positions.find? (fun p => decide (p.position_id = some target_id)) with
  | none => .error .positionNotFound
  | some target =>
    match spot with
    | .error _ => .error .priceUnavailable
    | .ok cur => .ok (close_position u target cur)

/-- The `close CRYPTO/USDT` branch of `app.handle_mention`: fetch spot,
aggregate pnl and margin over the matching positions, reject when the
aggregated margin is not positive, else settle in one balance update. -/
def close_by_symbol (u : UserData) (crypto : String) (spot : Except Unit ℚ) :
    Except CloseErr UserData :=
  match spot with
  | .error _ => .error .priceUnavailable
  | .ok cur =>
    let matching := u.positions.filter (fun p => decide (p.crypto = crypto))
    let survivors := u.positions.filter (fun p => decide (p.crypto ≠ crypto))
    let closed_pnl := (matching.map (fun p => calculate_pnl p cur)).sum
    let closed_margin := (matching.map Position.margin).sum
    if closed_margin ≤ 0 then .error .positionNotFound
    else .ok { u with positions := survivors,
                      usd := u.usd + closed_margin + closed_pnl }

/-- The `close all` branch of `app.handle_mention`.  `get_prices` is
imported from `coinbase` but absent from `src/coinbase.py`; modelled from
the spec as the Price Oracle's spot capability: either one failure that
aborts the whole command before any mutation, or a total symbol-to-price
map.  On success the Python loop iterates over the original position list
while `_close_position` rebinds `user_data.positions`, which is exactly a
fold of `_close_position` over the original list. -/
def close_all (u : UserData) (prices : Except Unit (String → ℚ)) :
    Except CloseErr UserData :=
  match prices with
  | .error _ => .error .priceUnavailable
  | .ok price_of =>
    .ok (u.positions.foldl
      (fun acc pos => (close_position acc pos (price_of pos.crypto)).1) u)

/-- One open position's settlement step inside `app._update_positions`
(lines 119-152): on spot failure the position survives untouched; if
take-profit or stop-loss hit, credit `margin + pnl`; else if liquidation
hit, drop the position with no balance change; else survive.  The three
trigger decisions are oracle-dependent booleans passed in. -/
def sweep_step (u : UserData) (pos : Position) (spot : Except Unit ℚ)
    (tp_hit stop_hit liq_hit : Bool) : UserData × Option Position :=
  match spot with
  | .error _ => (u, some pos)
  | .ok cur =>
    if tp_hit || stop_hit then
      ({ u with usd := u.usd + pos.margin + calculate_pnl pos cur }, none)
    else if liq_hit then (u, none)
    else (u, some pos)

/-- A concrete open position (id 7) used to instantiate proved theorems. -/
def posC3 : Position :=
  { position_id := some 7, crypto := "BTC", side := Direction.LONG,
    timestamp := some 0, entry := 100, margin := 50, lev := 10 }

/-- A concrete account holding `posC3`. -/
def uC3 : UserData := { usd := 100, positions := [posC3], orders := [] }

/-- `uC3` after closing position 7 at spot 80 (pnl clamps to -50). -/
def uC3after : UserData := { usd := 100, positions := [], orders := [] }

/-- A concrete account with a large balance and no positions. -/
def uC4 : UserData := { usd := 1000, positions := [], orders := [] }

/-- A concrete position used to instantiate proved theorems. -/
def posL : Position :=
  { position_id := some 0, crypto := "BTC", side := Direction.LONG,
    timestamp := some 0, entry := 100, margin := 50, lev := 10 }

/-- A concrete SHORT position used to instantiate proved theorems. -/
def posS : Position :=
  { position_id := some 1, crypto := "BTC", side := Direction.SHORT,
    timestamp := some 0, entry := 100, margin := 50, lev := 10 }

/-- One Coinbase candle as consumed by the code: only fields 0-2
(timestamp, low, high) of the returned
`[timestamp, low, high, open, close, volume]` tuples are read. -/
structure Candle where
  ts : ℤ
  low : ℚ
  high : ℚ
deriving DecidableEq, Repr

/-- `coinbase._choose_granularity`: granularity in seconds as a function of
the window duration. -/
def choose_granularity (start_ts end_ts : ℤ) : ℤ :=
  let duration := max 0 (end_ts - start_ts)
  if duration ≤ 2 * 24 * 60 * 60 then 60
  else if duration ≤ 7 * 24 * 60 * 60 then 300
  else if duration ≤ 30 * 24 * 60 * 60 then 900
  else if duration ≤ 180 * 24 * 60 * 60 then 3600
  else if duration ≤ 365 * 24 * 60 * 60 then 21600
  else 86400

/-- Stable insertion on ascending timestamp, used to model Python's stable
`sorted(..., key=candle timestamp)`. -/
def insertByTs (c : Candle) : List Candle → List Candle
  | [] => [c]
  | d :: l => if c.ts ≤ d.ts then c :: d :: l else d :: insertByTs c l

/-- Python's `sorted` on the candle timestamp (stable, ascending). -/
def sortByTs (l : List Candle) : List Candle := l.foldr insertByTs []

/-- The in-range check of the scan: the code skips a candle whose timestamp
is `< start_ts` or `> stop_ts`. -/
def inRange (start_ts stop_ts : ℤ) (c : Candle) : Bool :=
  decide (start_ts ≤ c.ts) && decide (c.ts ≤ stop_ts)

/-- The crossing check of the scan: upward triggers on `high >= price`,
downward on `low <= price`. -/
def hitPred (price : ℚ) (above : Bool) (c : Candle) : Bool :=
  if above then decide (price ≤ c.high) else decide (c.low ≤ price)

/-- The chunked scanning loop of `coinbase._first_trigger_hit_timestamp`
(lines 120-159): fetch one chunk, sort its candles ascending by timestamp,
return the first in-range candle that crosses the price, else advance the
cursor.  `fuel` bounds the chunk count; the entry point passes
`(stop_ts - start_ts).toNat`, which always suffices because each iteration
advances the cursor by at least 1 (the chunk size is
`granularity * 300 ≥ 18000`), so the out-of-fuel branch (returning the
same value as a completed loop) is never taken with a positive chunk. -/
def firstHitLoop (fetch : ℤ → ℤ → Except Unit (List Candle)) (price : ℚ)
    (above : Bool) (start_ts stop_ts chunk : ℤ) :
    ℕ → ℤ → Bool → Except Unit (Option ℤ × Bool)
  | 0, _, saw => .ok (none, saw)
  | fuel + 1, cursor, saw =>
    if cursor < stop_ts then
      let chunk_end := min stop_ts (cursor + chunk)
      match fetch cursor chunk_end with
      | .error e => .error e
      | .ok candles =>
        let saw2 := saw || !candles.isEmpty
        match (sortByTs candles).find?
            (fun c => inRange start_ts stop_ts c && hitPred price above c) with
        | some c => .ok (some c.ts, saw2)
        | none =>
          firstHitLoop fetch price above start_ts stop_ts chunk fuel chunk_end saw2
    else .ok (none, saw)

/-- `coinbase._first_trigger_hit_timestamp`: spot fallback for an empty or
inverted window, chunked candle scan otherwise, spot fallback again when no
chunk returned any candle. -/
def first_trigger_hit_timestamp (spot : Except Unit ℚ)
    (fetch : ℤ → ℤ → Except Unit (List Candle)) (price : ℚ) (above : Bool)
    (start_ts stop_ts : ℤ) : Except Unit (Option ℤ) :=
  if stop_ts ≤ start_ts then
    match spot with
    | .error e => .error e
    | .ok current =>
      if above then .ok (if price ≤ current then some stop_ts else none)
      else .ok (if current ≤ price then some stop_ts else none)
  else
    match firstHitLoop fetch price above start_ts stop_ts
        (choose_granularity start_ts stop_ts * 300)
        (stop_ts - start_ts).toNat start_ts false with
    | .error e => .error e
    | .ok (some ts, _) => .ok (some ts)
    | .ok (none, saw) =>
      if saw then .ok none
      else
        match spot with
        | .error e => .error e
        | .ok current =>
          if above then .ok (if price ≤ current then some stop_ts else none)
          else .ok (if current ≤ price then some stop_ts else none)

/-- Running low accumulator of `coinbase._price_extremes_since`. -/
def updateLow (cur : Option ℚ) (l : ℚ) : Option ℚ :=
  match cur with
  | none => some l
  | some m => if l < m then some l else some m

/-- Running high accumulator of `coinbase._price_extremes_since`. -/
def updateHigh (cur : Option ℚ) (h : ℚ) : Option ℚ :=
  match cur with
  | none => some h
  | some m => if m < h then some h else some m

/-- The chunked loop of `coinbase._price_extremes_since` (lines 179-207):
accumulate the minimum low and maximum high over every candle of every
chunk (no sorting, no range filtering there).  Fuel as in `firstHitLoop`. -/
def extremesLoop (fetch : ℤ → ℤ → Except Unit (List Candle))
    (stop_ts chunk : ℤ) :
    ℕ → ℤ → Option ℚ → Option ℚ → Except Unit (Option ℚ × Option ℚ)
  | 0, _, low_seen, high_seen => .ok (low_seen, high_seen)
  | fuel + 1, cursor, low_seen, high_seen =>
    if cursor < stop_ts then
      let chunk_end := min stop_ts (cursor + chunk)
      match fetch cursor chunk_end with
      | .error e => .error e
      | .ok candles =>
        let acc := candles.foldl
          (fun acc c => (updateLow acc.1 c.low, updateHigh acc.2 c.high))
          (low_seen, high_seen)
        extremesLoop fetch stop_ts chunk fuel chunk_end acc.1 acc.2
    else .ok (low_seen, high_seen)

/-- `coinbase._price_extremes_since`. -/
def price_extremes_since (fetch : ℤ → ℤ → Except Unit (List Candle))
    (start_ts end_ts : ℤ) : Except Unit (Option ℚ × Option ℚ) :=
  extremesLoop fetch end_ts (choose_granularity start_ts end_ts * 300)
    (end_ts - start_ts).toNat start_ts none none

/-- The runtime error that `_was_trigger_hit` does not catch: Python's
`TypeError` raised when a float is compared with `None` (its `except`
clause catches only `ValueError`). -/
inductive PyErr where
  | typeError
deriving DecidableEq, Repr

/-- Python `a >= b` with `b : Optional[float]`: `TypeError` when `b` is
`None`. -/
def pyGe (a : ℚ) (b : Option ℚ) : Except PyErr Bool :=
  match b with
  | none => .error .typeError
  | some q => .ok (decide (q ≤ a))

/-- Python `a <= b` with `b : Optional[float]`: `TypeError` when `b` is
`None`. -/
def pyLe (a : ℚ) (b : Option ℚ) : Except PyErr Bool :=
  match b with
  | none => .error .typeError
  | some q => .ok (decide (a ≤ q))

/-- `coinbase._was_trigger_hit`: the `try` body catches only the
`ValueError`s raised by the oracle calls (returning `False`); comparisons
against the possibly-`None` trigger price raise `TypeError`, which is not
caught, whether they occur in the spot fallbacks inside the `try` or in
the final extremes comparison outside it. -/
def was_trigger_hit (spot : Except Unit ℚ)
    (fetch : ℤ → ℤ → Except Unit (List Candle)) (price : Option ℚ)
    (above : Bool) (start_ts stop_ts : ℤ) : Except PyErr Bool :=
  if stop_ts ≤ start_ts then
    match spot with
    | .error _ => .ok false
    | .ok current => if above then pyGe current price else pyLe current price
  else
    match price_extremes_since fetch start_ts stop_ts with
    | .error _ => .ok false
    | .ok (some low, some high) =>
      if above then pyGe high price else pyLe low price
    | .ok _ =>
      match spot with
      | .error _ => .ok false
      | .ok current => if above then pyGe current price else pyLe current price

/-- `coinbase.should_liquidate`: `False` when the position has no
timestamp, otherwise the trigger scan against `liquidation_price()`
from the position's timestamp to now (upward for SHORT). -/
def should_liquidate (spot : Except Unit ℚ)
    (fetch : ℤ → ℤ → Except Unit (List Candle)) (position : Position)
    (now : ℤ) : Except PyErr Bool :=
  match position.timestamp with
  | none => .ok false
  | some ts =>
    was_trigger_hit spot fetch position.liquidation_price
      (decide (position.side = Direction.SHORT)) ts now

/-- `coinbase.should_fill_limit_order`: `None` when the order has no
timestamp, otherwise the first crossing of the limit (entry) price since
the order's timestamp; a `ValueError` from the scan is caught and yields
`None`. -/
def should_fill_limit_order (spot : Except Unit ℚ)
    (fetch : ℤ → ℤ → Except Unit (List Candle)) (order : Position)
    (now : ℤ) : Option ℤ :=
  match order.timestamp with
  | none => none
  | some ts =>
    match first_trigger_hit_timestamp spot fetch order.entry
        (decide (order.side = Direction.SHORT)) ts now with
    | .error _ => none
    | .ok r => r

/-- Modelled from the spec: `should_stop_loss` is imported by `app.py`
from `coinbase` but absent from `src/coinbase.py`.  Per the spec it is
true when a stop is set and the price history observed since the stop's
own `stop_timestamp` crossed it: LONG stops trigger on `low ≤ stopLoss`,
SHORT stops on `high ≥ stopLoss`.  The observed history is a list of
timestamped low/high samples. -/
def should_stop_loss (hist : List Candle) (position : Position) : Bool :=
  match position.stop_loss, position.stop_timestamp with
  | some sl, some ts0 =>
    hist.any (fun c => decide (ts0 ≤ c.ts) &&
      (if position.side = Direction.LONG then decide (c.low ≤ sl)
       else decide (sl ≤ c.high)))
  | _, _ => false

/-- Modelled from the spec: `should_take_profit` is imported by `app.py`
from `coinbase` but absent from `src/coinbase.py`.  Symmetric to
`should_stop_loss`: LONG triggers on `high ≥ takeProfit`, SHORT on
`low ≤ takeProfit`, over the history since the trigger's own
`tp_timestamp`. -/
def should_take_profit (hist : List Candle) (position : Position) : Bool :=
  match position.take_profit, position.tp_timestamp with
  | some tp, some ts0 =>
    hist.any (fun c => decide (ts0 ≤ c.ts) &&
      (if position.side = Direction.LONG then decide (tp ≤ c.high)
       else decide (c.low ≤ tp)))
  | _, _ => false

/-- Following the spec's words for `firstTriggerCrossing`: the candles the
chronological scan should consider, namely each chunk's candles sorted
ascending by timestamp and restricted to `[start_ts, stop_ts]`,
concatenated in chunk order; the boolean records whether any chunk
returned candle data at all. -/
def chunkScanCandles (fetch : ℤ → ℤ → Except Unit (List Candle))
    (start_ts stop_ts chunk : ℤ) :
    ℕ → ℤ → Except Unit (List Candle × Bool)
  | 0, _ => .ok ([], false)
  | fuel + 1, cursor =>
    if cursor < stop_ts then
      let chunk_end := min stop_ts (cursor + chunk)
      match fetch cursor chunk_end with
      | .error e => .error e
      | .ok candles =>
        match chunkScanCandles fetch start_ts stop_ts chunk fuel chunk_end with
        | .error e => .error e
        | .ok (rest, saw_rest) =>
          .ok ((sortByTs candles).filter (inRange start_ts stop_ts) ++ rest,
            !candles.isEmpty || saw_rest)
    else .ok ([], false)

/-- A position with non-positive leverage (as produced for legacy records
by `Position.from_dict`, which defaults `lev` to 0). -/
def posLev0 : Position :=
  { position_id := some 2, crypto := "BTC", side := Direction.LONG,
    timestamp := some 0, entry := 100, margin := 50, lev := 0 }

/-- A candle oracle returning one fixed candle for every chunk request. -/
def fetchOne : ℤ → ℤ → Except Unit (List Candle) :=
  fun _ _ => .ok [{ ts := 5, low := 10, high := 20 }]

/-- A partially failing candle oracle: the chunk request starting at 0
succeeds (with no candles), every later chunk request fails. -/
def fetchPartial : ℤ → ℤ → Except Unit (List Candle) :=
  fun s _ => if s ≤ 0 then .ok [] else .error ()

/-- A candle oracle that succeeds with no candles on every chunk request. -/
def fetchEmpty : ℤ → ℤ → Except Unit (List Candle) :=
  fun _ _ => .ok []

/-- A pending order with no timestamp (as produced for legacy records
before the loader backfills `timestamp`). -/
def orderNoTs : Position :=
  { position_id := some 3, crypto := "BTC", side := Direction.SHORT,
    timestamp := none, entry := 100, margin := 50, lev := 10 }

/-- The string a `Direction` serializes to: `json.dump` writes the
str-Enum by its value. -/
def Direction.value : Direction → String
  | .LONG => "LONG"
  | .SHORT => "SHORT"

/-- Python's whitespace test used by `str.strip()` (the ASCII whitespace
characters). -/
def isPySpace (c : Char) : Bool :=
  decide (c = ' ') || decide (c = '\t') || decide (c = '\n') ||
  decide (c = '\r') || decide (c = '\x0b') || decide (c = '\x0c')

/-- Python `str.strip()`, modelled over the character list. -/
def pyStrip (s : String) : String :=
  String.mk (((s.data.dropWhile isPySpace).reverse.dropWhile isPySpace).reverse)

/-- Python `str.upper()`, modelled over the character list. -/
def pyUpper (s : String) : String := String.mk (s.data.map Char.toUpper)

/-- `store.Direction.from_raw`: strip and upper-case the raw value, map
BUY/LONG and SELL/SHORT; anything else raises `ValueError` (modelled as
`none`). -/
def Direction.from_raw (raw : String) : Option Direction :=
  let normalized := pyUpper (pyStrip raw)
  if normalized = "BUY" ∨ normalized = "LONG" then some Direction.LONG
  else if normalized = "SELL" ∨ normalized = "SHORT" then some Direction.SHORT
  else none

/-- The persisted form of a `Position`: the JSON object written by
`Position.to_dict`.  A `none` models the key being absent or null in the
raw dict (Python's `raw.get(...)` returns `None` in both cases). -/
structure RawPosition where
  position_id : Option ℤ := none
  crypto : Option String := none
  side : Option String := none
  timestamp : Option ℤ := none
  entry : Option ℚ := none
  margin : Option ℚ := none
  lev : Option ℤ := none
  take_profit : Option ℚ := none
  stop_loss : Option ℚ := none
  tp_timestamp : Option ℤ := none
  stop_timestamp : Option ℤ := none
deriving DecidableEq, Repr

/-- `store.Position.to_dict`: writes every field, the side as its string
value. -/
def Position.to_dict (p : Position) : RawPosition :=
  { position_id := p.position_id,
    crypto := some p.crypto,
    side := some p.side.value,
    timestamp := p.timestamp,
    entry := some p.entry,
    margin := some p.margin,
    lev := some p.lev,
    take_profit := p.take_profit,
    stop_loss := p.stop_loss,
    tp_timestamp := p.tp_timestamp,
    stop_timestamp := p.stop_timestamp }

/-- `store.Position.from_dict`: `.get` defaults for missing keys (`""`,
`0.0`, `0`, side `LONG`), numeric coercions are identities on
already-numeric JSON values, an unparseable side falls back to LONG
(the `except ValueError` clause), and the optional trigger fields pass
through. -/
def Position.from_dict (raw : RawPosition) : Position :=
  { position_id := raw.position_id,
    crypto := raw.crypto.getD "",
    side := (Direction.from_raw (raw.side.getD Direction.LONG.value)).getD
      Direction.LONG,
    timestamp := raw.timestamp,
    entry := raw.entry.getD 0,
    margin := raw.margin.getD 0,
    lev := raw.lev.getD 0,
    take_profit := raw.take_profit,
    stop_loss := raw.stop_loss,
    tp_timestamp := raw.tp_timestamp,
    stop_timestamp := raw.stop_timestamp }

/-- The persisted form of a `UserData` object. -/
structure RawUser where
  usd : Option ℚ := none
  positions : Option (List RawPosition) := none
  orders : Option (List RawPosition) := none
deriving DecidableEq, Repr

/-- `store.UserData.to_dict`. -/
def UserData.to_dict (u : UserData) : RawUser :=
  { usd := some u.usd,
    positions := some (u.positions.map Position.to_dict),
    orders := some (u.orders.map Position.to_dict) }

/-- `store.UserData.from_dict`: defaults `usd` to 0.0 and the lists to
empty. -/
def UserData.from_dict (raw : RawUser) : UserData :=
  { usd := raw.usd.getD 0,
    positions := (raw.positions.getD []).map Position.from_dict,
    orders := (raw.orders.getD []).map Position.from_dict }

/-- `store.AppData`: the user map (modelled as an association list in
iteration order) plus the shared id counter. -/
structure AppData where
  users : List (String × UserData) := []
  next_id : ℤ := 0
deriving DecidableEq, Repr

/-- The persisted top-level document. -/
structure RawApp where
  users : Option (List (String × RawUser)) := none
  next_id : Option ℤ := none
deriving DecidableEq, Repr

/-- `store.AppData.to_dict`. -/
def AppData.to_dict (d : AppData) : RawApp :=
  { users := some (d.users.map (fun e => (e.1, e.2.to_dict))),
    next_id := some d.next_id }

/-- `store.AppData.from_dict`: defaults the user map to empty and
`next_id` to 0. -/
def AppData.from_dict (raw : RawApp) : AppData :=
  { users := (raw.users.getD []).map (fun e => (e.1, UserData.from_dict e.2)),
    next_id := raw.next_id.getD 0 }

/-- C1: for every position with positive entry price, `_calculate_pnl`
returns `max (pct * margin * lev) (-margin)` with
`pct = (current - entry)/entry` for LONG and `(entry - current)/entry`
for SHORT; in particular the result is never below `-margin`. -/
theorem calculate_pnl_clamped (p : Position) (current : ℚ) (_hentry : 0 < p.entry) :
    (p.side = Direction.LONG →
      calculate_pnl p current =
        max ((current - p.entry) / p.entry * p.margin * (p.lev : ℚ)) (-p.margin)) ∧
    (p.side = Direction.SHORT →
      calculate_pnl p current =
        max ((p.entry - current) / p.entry * p.margin * (p.lev : ℚ)) (-p.margin)) ∧
    -p.margin ≤ calculate_pnl p current := by
  unfold calculate_pnl
  refine ⟨fun hs => ?_, fun hs => ?_, le_max_right _ _⟩ <;>
    cases hp : p.side <;> simp_all

/-- C1 witness: the theorem instantiated at a concrete LONG position and
price. -/
theorem calculate_pnl_clamped_witness :
    (0 : ℚ) < posL.entry ∧ -posL.margin ≤ calculate_pnl posL 80 :=
  ⟨by norm_num [posL], (calculate_pnl_clamped posL 80 (by norm_num [posL])).2.2⟩

/-- C2: `liquidation_price` is `none` exactly when `lev ≤ 0`; otherwise it is
`entry * (1 - 1/lev)` for LONG and `entry * (1 + 1/lev)` for SHORT, and for
leverage in [1,50] with positive entry the LONG threshold is strictly below
entry while the SHORT threshold is strictly above it. -/
theorem liquidation_price_spec (p : Position) :
    (p.liquidation_price = none ↔ p.lev ≤ 0) ∧
    (0 < p.lev → p.side = Direction.LONG →
      p.liquidation_price = some (p.entry * (1 - 1 / (p.lev : ℚ)))) ∧
    (0 < p.lev → p.side = Direction.SHORT →
      p.liquidation_price = some (p.entry * (1 + 1 / (p.lev : ℚ)))) ∧
    (1 ≤ p.lev → p.lev ≤ 50 → 0 < p.entry →
      ∀ x, p.liquidation_price = some x →
        (p.side = Direction.LONG → x < p.entry) ∧
        (p.side = Direction.SHORT → p.entry < x)) := by
  unfold Position.liquidation_price
  have hmove : 1 ≤ p.lev → 0 < 1 / (p.lev : ℚ) := by
    intro h1
    have : (0 : ℚ) < (p.lev : ℚ) := by exact_mod_cast lt_of_lt_of_le zero_lt_one (by exact_mod_cast h1)
    positivity
  refine ⟨?_, ?_, ?_, ?_⟩
  · constructor
    · intro h
      by_contra hle
      simp only [if_neg hle] at h
      cases hp : p.side <;> simp [hp] at h
    · intro h; simp [h]
  · intro hpos hs
    have : ¬ p.lev ≤ 0 := by omega
    simp [this, hs]
  · intro hpos hs
    have : ¬ p.lev ≤ 0 := by omega
    simp [this, hs]
  · intro h1 _ hent x hx
    have hne : ¬ p.lev ≤ 0 := by omega
    have hm := hmove h1
    constructor
    · intro hs
      rw [if_neg hne, if_pos hs, Option.some_inj] at hx
      subst hx
      nlinarith
    · intro hs
      have hns : ¬ p.side = Direction.LONG := by simp [hs]
      rw [if_neg hne, if_neg hns, Option.some_inj] at hx
      subst hx
      nlinarith

/-- C2 witness: the theorem instantiated at concrete LONG and SHORT
positions with leverage 10 and entry 100. -/
theorem liquidation_price_spec_witness :
    posL.liquidation_price = some 90 ∧ posS.liquidation_price = some 110 := by
  constructor
  · have h := (liquidation_price_spec posL).2.1 (by norm_num [posL]) rfl
    rw [h]; norm_num [posL]
  · have h := (liquidation_price_spec posS).2.2.1 (by norm_num [posS]) rfl
    rw [h]; norm_num [posS]

/-- Helper: the pnl clamp is bounded below by the escrowed margin. -/
theorem neg_margin_le_calculate_pnl (p : Position) (cur : ℚ) :
    -p.margin ≤ calculate_pnl p cur := le_max_right _ _

/-- Helper: aggregated margin plus aggregated clamped pnl is non-negative. -/
theorem sum_margin_pnl_nonneg (l : List Position) (cur : ℚ) :
    0 ≤ (l.map Position.margin).sum + (l.map (fun p => calculate_pnl p cur)).sum := by
  induction l with
  | nil => simp
  | cons p t ih =>
    simp only [List.map_cons, List.sum_cons]
    have h1 := neg_margin_le_calculate_pnl p cur
    linarith

/-- Helper: each `_close_position` step only raises the balance. -/
theorem close_all_usd_mono (l : List Position) (price_of : String → ℚ) (u : UserData) :
    u.usd ≤ (l.foldl (fun acc pos => (close_position acc pos (price_of pos.crypto)).1) u).usd := by
  induction l generalizing u with
  | nil => simp
  | cons p t ih =>
    simp only [List.foldl_cons]
    refine le_trans ?_ (ih _)
    have h1 := neg_margin_le_calculate_pnl p (price_of p.crypto)
    simp only [close_position]
    linarith

/-- C3: starting from a non-negative balance, every successful
balance-mutating operation keeps the balance non-negative: opening debits
margin only after the `usd < margin` check, the close commands credit
`margin + pnl` with pnl clamped at `-margin`, the sweep's trigger close
credits the same non-negative amount, and the sweep's liquidation branch
leaves the balance unchanged. -/
theorem balance_nonneg_ops :
    (∀ (u : UserData) (crypto : String) (side : Direction) (margin : ℚ)
        (leverage : ℤ) (limit_price : Option ℚ) (spot : Except Unit ℚ)
        (pid now : ℤ) (u2 : UserData) (pos : Position),
        0 ≤ u.usd →
        open_position u crypto side margin leverage limit_price spot pid now
          = .ok (u2, pos) →
        0 ≤ u2.usd) ∧
    (∀ (u : UserData) (target_id : ℤ) (spot : Except Unit ℚ)
        (u2 : UserData) (pnl : ℚ),
        0 ≤ u.usd → close_by_id u target_id spot = .ok (u2, pnl) → 0 ≤ u2.usd) ∧
    (∀ (u : UserData) (crypto : String) (spot : Except Unit ℚ) (u2 : UserData),
        0 ≤ u.usd → close_by_symbol u crypto spot = .ok u2 → 0 ≤ u2.usd) ∧
    (∀ (u : UserData) (prices : Except Unit (String → ℚ)) (u2 : UserData),
        0 ≤ u.usd → close_all u prices = .ok u2 → 0 ≤ u2.usd) ∧
    (∀ (u : UserData) (pos : Position) (spot : Except Unit ℚ) (b1 b2 b3 : Bool),
        0 ≤ u.usd → 0 ≤ (sweep_step u pos spot b1 b2 b3).1.usd) ∧
    (∀ (u : UserData) (pos : Position) (cur : ℚ),
        (sweep_step u pos (.ok cur) false false true).1.usd = u.usd) := by
  refine ⟨?_, ?_, ?_, ?_, ?_, ?_⟩
  · intro u crypto side margin leverage limit_price spot pid now u2 pos h0 hok
    unfold open_position at hok
    split at hok
    · exact absurd hok (by simp)
    split at hok
    · exact absurd hok (by simp)
    split at hok
    · exact absurd hok (by simp)
    split at hok
    · exact absurd hok (by simp)
    rename_i hlev hm hlim hbal
    cases spot with
    | error e => simp at hok
    | ok spot_price =>
      push_neg at hbal
      cases limit_price with
      | some lp =>
        simp only [] at hok
        split at hok
        · exact absurd hok (by simp)
        split at hok
        · exact absurd hok (by simp)
        simp only [Except.ok.injEq, Prod.mk.injEq] at hok
        have : u2.usd = u.usd - margin := by rw [← hok.1]
        rw [this]; linarith
      | none =>
        simp only [Except.ok.injEq, Prod.mk.injEq] at hok
        have : u2.usd = u.usd - margin := by rw [← hok.1]
        rw [this]; linarith
  · intro u target_id spot u2 pnl h0 hok
    unfold close_by_id at hok
    split at hok
    · exact absurd hok (by simp)
    rename_i target hfind
    cases spot with
    | error e => simp at hok
    | ok cur =>
      simp only [Except.ok.injEq] at hok
      have h1 := neg_margin_le_calculate_pnl target cur
      have h2 : (close_position u target cur).1 = u2 := by rw [hok]
      have : u2.usd = u.usd + target.margin + calculate_pnl target cur := by
        rw [← h2]; simp [close_position]
      rw [this]; linarith
  · intro u crypto spot u2 h0 hok
    unfold close_by_symbol at hok
    cases spot with
    | error e => simp at hok
    | ok cur =>
      simp only [] at hok
      split at hok
      · exact absurd hok (by simp)
      simp only [Except.ok.injEq] at hok
      have hsum := sum_margin_pnl_nonneg
        (u.positions.filter (fun p => decide (p.crypto = crypto))) cur
      have : u2.usd = u.usd
          + ((u.positions.filter (fun p => decide (p.crypto = crypto))).map
              Position.margin).sum
          + ((u.positions.filter (fun p => decide (p.crypto = crypto))).map
              (fun p => calculate_pnl p cur)).sum := by
        rw [← hok]
      rw [this]; linarith
  · intro u prices u2 h0 hok
    unfold close_all at hok
    cases prices with
    | error e => simp at hok
    | ok price_of =>
      simp only [Except.ok.injEq] at hok
      have := close_all_usd_mono u.positions price_of u
      rw [← hok]; linarith
  · intro u pos spot b1 b2 b3 h0
    cases spot with
    | error e => simpa [sweep_step] using h0
    | ok cur =>
      have h1 := neg_margin_le_calculate_pnl pos cur
      by_cases hb : (b1 || b2) = true
      · simp only [sweep_step, hb, if_true]
        linarith
      · cases b3 <;> simp only [sweep_step, hb, if_false, Bool.false_eq_true] <;> simpa using h0
  · intro u pos cur
    simp [sweep_step]

/-- C3 witness: closing position 7 of `uC3` at spot 80 succeeds (pnl clamps
to -50) and the theorem yields a non-negative final balance. -/
theorem balance_nonneg_ops_witness :
    0 ≤ uC3.usd ∧
    close_by_id uC3 7 (Except.ok 80) = Except.ok (uC3after, -50) ∧
    0 ≤ uC3after.usd :=
  ⟨by norm_num [uC3],
   by norm_num [close_by_id, close_position, calculate_pnl, uC3, posC3, uC3after,
        List.find?, List.filter],
   balance_nonneg_ops.2.1 uC3 7 (Except.ok 80) uC3after (-50)
     (by norm_num [uC3])
     (by norm_num [close_by_id, close_position, calculate_pnl, uC3, posC3, uC3after,
          List.find?, List.filter])⟩

/-- C4 counterexample: contrary to the claim, a SHORT limit order at limit
price 50 while spot is 55 is rejected with `InvalidLimitPrice` (the code
rejects a SHORT limit strictly below the current spot price). -/
theorem short_limit_counterexample :
    open_position uC4 "BTC" Direction.SHORT 100 10 (some 50) (Except.ok 55) 0 0
      = Except.error OpenErr.invalidLimitPrice := by rfl

/-- C4 amended: the scenario runs the other way around: for a user with
sufficient balance, a SHORT limit at 50 while spot is 45 is accepted into
pending orders (balance debited by the margin), and the same request while
spot is 55 is rejected with `InvalidLimitPrice`, leaving the account
unchanged (the operation returns only the error). -/
theorem short_limit_validation (u : UserData) (margin : ℚ) (leverage pid now : ℤ)
    (hbal : margin ≤ u.usd) (hm : 0 < margin)
    (hlev1 : 1 ≤ leverage) (hlev2 : leverage ≤ 50) :
    (∃ pos : Position,
      open_position u "BTC" Direction.SHORT margin leverage (some 50)
          (Except.ok 45) pid now
        = .ok ({ u with orders := u.orders ++ [pos], usd := u.usd - margin }, pos) ∧
      pos.entry = 50 ∧ pos.side = Direction.SHORT) ∧
    open_position u "BTC" Direction.SHORT margin leverage (some 50)
        (Except.ok 55) pid now
      = .error .invalidLimitPrice := by
  have hc1 : ¬ ¬ (1 ≤ leverage ∧ leverage ≤ 50) := by push_neg; exact ⟨hlev1, hlev2⟩
  have hc2 : ¬ margin ≤ 0 := by linarith
  have hany : ¬ ((Option.any (fun lp => decide (lp ≤ 0)) (some (50 : ℚ))) = true) := by decide
  have hc4 : ¬ u.usd < margin := by linarith
  constructor
  · refine ⟨{ position_id := some pid, crypto := "BTC", side := Direction.SHORT,
              timestamp := some now, entry := 50, margin := margin, lev := leverage },
            ?_, rfl, rfl⟩
    unfold open_position
    rw [if_neg hc1, if_neg hc2, if_neg hany, if_neg hc4]
    dsimp only
    rw [if_neg (by decide : ¬ (Direction.SHORT = Direction.LONG ∧ (45 : ℚ) < 50)),
        if_neg (by decide : ¬ (Direction.SHORT = Direction.SHORT ∧ (50 : ℚ) < 45))]
  · unfold open_position
    rw [if_neg hc1, if_neg hc2, if_neg hany, if_neg hc4]
    dsimp only
    rw [if_neg (by decide : ¬ (Direction.SHORT = Direction.LONG ∧ (55 : ℚ) < 50)),
        if_pos (⟨rfl, by norm_num⟩ : Direction.SHORT = Direction.SHORT ∧ (50 : ℚ) < 55)]

/-- C4 witness: the amended theorem instantiated at the concrete account
`uC4` with margin 100 and leverage 10. -/
theorem short_limit_validation_witness :
    (∃ pos : Position,
      open_position uC4 "BTC" Direction.SHORT 100 10 (some 50)
          (Except.ok 45) 0 0
        = .ok ({ uC4 with orders := uC4.orders ++ [pos], usd := uC4.usd - 100 }, pos) ∧
      pos.entry = 50 ∧ pos.side = Direction.SHORT) ∧
    open_position uC4 "BTC" Direction.SHORT 100 10 (some 50)
        (Except.ok 55) 0 0
      = .error .invalidLimitPrice :=
  short_limit_validation uC4 100 10 0 0 (by norm_num [uC4]) (by norm_num)
    (by norm_num) (by norm_num)

/-- C5 (failing input): on a position with leverage 0 — so
`liquidation_price()` is `None` — and a working oracle, `should_liquidate`
raises `TypeError` (comparing a float with `None`; only `ValueError` is
caught) instead of returning `False`. -/
theorem should_liquidate_lev0_raises :
    should_liquidate (Except.ok 100) fetchOne posLev0 100
      = .error PyErr.typeError := by decide

/-- C7: whenever a price-oracle request actually consulted during trigger
evaluation fails, `should_liquidate` returns `False` (it never liquidates
on missing data) and `should_fill_limit_order` returns `None` (the order
stays pending); neither propagates the failure.  The conjuncts enumerate
every way a consulted request can fail, for an arbitrary oracle: (1) the
spot request of the empty/inverted-window branch; (2) any candle-chunk
request of the extremes scan — `price_extremes_since` errors exactly when
a chunk request it makes fails, also after earlier chunks succeeded; (3)
the spot request of the no-candle-data fallback after all chunk requests
succeeded; (4)-(6) the same three cases for the limit-order scan, whose
loop errors exactly when a chunk request it makes fails and which falls
back to spot only when it completed without seeing a candle.  In every
other execution no consulted request fails, so the cases are exhaustive. -/
theorem oracle_failure_fails_safe (spot : Except Unit ℚ)
    (fetch : ℤ → ℤ → Except Unit (List Candle)) (p : Position) (now ts : ℤ)
    (hts : p.timestamp = some ts) :
    ((now ≤ ts → spot = .error () →
        should_liquidate spot fetch p now = .ok false) ∧
     (price_extremes_since fetch ts now = .error () →
        should_liquidate spot fetch p now = .ok false) ∧
     (∀ lo hi, price_extremes_since fetch ts now = .ok (lo, hi) →
        lo = none ∨ hi = none → spot = .error () →
        should_liquidate spot fetch p now = .ok false)) ∧
    ((now ≤ ts → spot = .error () →
        should_fill_limit_order spot fetch p now = none) ∧
     (firstHitLoop fetch p.entry (decide (p.side = Direction.SHORT)) ts now
        (choose_granularity ts now * 300) (now - ts).toNat ts false
          = .error () →
        should_fill_limit_order spot fetch p now = none) ∧
     (firstHitLoop fetch p.entry (decide (p.side = Direction.SHORT)) ts now
        (choose_granularity ts now * 300) (now - ts).toNat ts false
          = .ok (none, false) →
        spot = .error () →
        should_fill_limit_order spot fetch p now = none)) := by
  refine ⟨⟨?_, ?_, ?_⟩, ?_, ?_, ?_⟩
  · intro hle hsp
    unfold should_liquidate
    rw [hts]
    dsimp only
    unfold was_trigger_hit
    rw [if_pos hle, hsp]
  · intro hext
    have hnle : ¬ now ≤ ts := by
      intro hle
      unfold price_extremes_since at hext
      have h0 : (now - ts).toNat = 0 := by omega
      rw [h0] at hext
      exact absurd hext (by simp [extremesLoop])
    unfold should_liquidate
    rw [hts]
    dsimp only
    unfold was_trigger_hit
    rw [if_neg hnle, hext]
  · intro lo hi hex hnone hsp
    unfold should_liquidate
    rw [hts]
    dsimp only
    unfold was_trigger_hit
    by_cases hle : now ≤ ts
    · rw [if_pos hle, hsp]
    · rw [if_neg hle, hex]
      rcases hnone with rfl | rfl
      · cases hi <;> rw [hsp]
      · cases lo <;> rw [hsp]
  · intro hle hsp
    unfold should_fill_limit_order
    rw [hts]
    dsimp only
    have hft : first_trigger_hit_timestamp spot fetch p.entry
        (decide (p.side = Direction.SHORT)) ts now = .error () := by
      unfold first_trigger_hit_timestamp
      rw [if_pos hle, hsp]
    rw [hft]
  · intro hloop
    have hnle : ¬ now ≤ ts := by
      intro hle
      have h0 : (now - ts).toNat = 0 := by omega
      rw [h0] at hloop
      exact absurd hloop (by simp [firstHitLoop])
    unfold should_fill_limit_order
    rw [hts]
    dsimp only
    have hft : first_trigger_hit_timestamp spot fetch p.entry
        (decide (p.side = Direction.SHORT)) ts now = .error () := by
      unfold first_trigger_hit_timestamp
      rw [if_neg hnle, hloop]
    rw [hft]
  · intro hloop hsp
    unfold should_fill_limit_order
    rw [hts]
    dsimp only
    have hft : first_trigger_hit_timestamp spot fetch p.entry
        (decide (p.side = Direction.SHORT)) ts now = .error () := by
      unfold first_trigger_hit_timestamp
      by_cases hle : now ≤ ts
      · rw [if_pos hle, hsp]
      · rw [if_neg hle, hloop, hsp]
        rfl
    rw [hft]

/-- C7 witness: two concrete partial failures — (a) the second candle
chunk of a two-chunk window fails after the first chunk succeeded, with a
healthy spot, so `should_liquidate` returns false; (b) every candle chunk
succeeds but returns no data and only the spot fallback fails, so
`should_fill_limit_order` returns `None`. -/
theorem oracle_failure_fails_safe_witness :
    posL.timestamp = some 0 ∧
    price_extremes_since fetchPartial 0 20000 = .error () ∧
    should_liquidate (Except.ok 100) fetchPartial posL 20000 = .ok false ∧
    posS.timestamp = some 0 ∧
    firstHitLoop fetchEmpty posS.entry (decide (posS.side = Direction.SHORT))
      0 20000 (choose_granularity 0 20000 * 300) ((20000 : ℤ) - 0).toNat 0 false
      = .ok (none, false) ∧
    should_fill_limit_order (Except.error ()) fetchEmpty posS 20000 = none :=
  ⟨rfl, by decide,
   (oracle_failure_fails_safe (Except.ok 100) fetchPartial posL 20000 0
      rfl).1.2.1 (by decide),
   rfl, by decide,
   (oracle_failure_fails_safe (Except.error ()) fetchEmpty posS 20000 0
      rfl).2.2.2 (by decide) rfl⟩

/-- C10: a position or order whose `timestamp` is `None` is never
liquidated and never filled, independently of the price oracle (the
result is the same for every oracle, which is consulted not at all). -/
theorem untimestamped_never_triggers (p : Position) (now : ℤ)
    (spot spot2 : Except Unit ℚ)
    (fetch fetch2 : ℤ → ℤ → Except Unit (List Candle))
    (h : p.timestamp = none) :
    should_liquidate spot fetch p now = .ok false ∧
    should_fill_limit_order spot2 fetch2 p now = none := by
  unfold should_liquidate should_fill_limit_order
  rw [h]
  exact ⟨rfl, rfl⟩

/-- C10 witness: the theorem instantiated at a concrete untimestamped
order and a concrete working oracle. -/
theorem untimestamped_never_triggers_witness :
    orderNoTs.timestamp = none ∧
    should_liquidate (Except.ok 100) fetchOne orderNoTs 100 = .ok false ∧
    should_fill_limit_order (Except.ok 100) fetchOne orderNoTs 100 = none :=
  ⟨rfl,
   (untimestamped_never_triggers orderNoTs 100 (Except.ok 100) (Except.ok 100)
      fetchOne fetchOne rfl).1,
   (untimestamped_never_triggers orderNoTs 100 (Except.ok 100) (Except.ok 100)
      fetchOne fetchOne rfl).2⟩

/-- C6: `should_stop_loss` is true iff a stop is set and the history since
the stop's own set-at timestamp (`stop_timestamp`, not the position's open
time) crossed it — LONG on an observed low at or below the stop, SHORT on
an observed high at or above it; `should_take_profit` is symmetric. -/
theorem trigger_history_iff (hist : List Candle) (p : Position) :
    (should_stop_loss hist p = true ↔
      ∃ sl ts0, p.stop_loss = some sl ∧ p.stop_timestamp = some ts0 ∧
        ∃ c ∈ hist, ts0 ≤ c.ts ∧
          (p.side = Direction.LONG → c.low ≤ sl) ∧
          (p.side = Direction.SHORT → sl ≤ c.high)) ∧
    (should_take_profit hist p = true ↔
      ∃ tp ts0, p.take_profit = some tp ∧ p.tp_timestamp = some ts0 ∧
        ∃ c ∈ hist, ts0 ≤ c.ts ∧
          (p.side = Direction.LONG → tp ≤ c.high) ∧
          (p.side = Direction.SHORT → c.low ≤ tp)) := by
  constructor
  · cases hsl : p.stop_loss with
    | none => simp [should_stop_loss, hsl]
    | some sl =>
      cases hst : p.stop_timestamp with
      | none => simp [should_stop_loss, hsl, hst]
      | some ts0 =>
        cases hside : p.side <;>
          simp [should_stop_loss, hsl, hst, hside, List.any_eq_true,
            and_assoc]
  · cases htp : p.take_profit with
    | none => simp [should_take_profit, htp]
    | some tp =>
      cases htt : p.tp_timestamp with
      | none => simp [should_take_profit, htp, htt]
      | some ts0 =>
        cases hside : p.side <;>
          simp [should_take_profit, htp, htt, hside, List.any_eq_true,
            and_assoc]

/-- Helper: searching a filtered list is searching the original list for
the conjunction of the two predicates. -/
theorem find?_filter_eq {α : Type} (l : List α) (p q : α → Bool) :
    (l.filter q).find? p = l.find? (fun a => q a && p a) := by
  induction l with
  | nil => rfl
  | cons a t ih =>
    by_cases hq : q a
    · by_cases hp : p a
      · simp [List.filter_cons, hq, List.find?_cons, hp]
      · simp [List.filter_cons, hq, List.find?_cons, hp, ih]
    · simp [List.filter_cons, hq, List.find?_cons, ih]

/-- Helper: the scanning loop of `_first_trigger_hit_timestamp` returns the
timestamp of the first crossing candle of the spec-side candle sequence
(each chunk sorted ascending and restricted to the window, in chunk
order), and completes with the accumulated saw-candles flag when no candle
crosses. -/
theorem firstHitLoop_eq_chunkScan (fetch : ℤ → ℤ → Except Unit (List Candle))
    (price : ℚ) (above : Bool) (start_ts stop_ts chunk : ℤ) :
    ∀ (fuel : ℕ) (cursor : ℤ) (saw : Bool) (L : List Candle) (s : Bool),
      chunkScanCandles fetch start_ts stop_ts chunk fuel cursor = .ok (L, s) →
      (∀ c, L.find? (hitPred price above) = some c →
          ∃ b, firstHitLoop fetch price above start_ts stop_ts chunk fuel cursor saw
            = .ok (some c.ts, b)) ∧
      (L.find? (hitPred price above) = none →
          firstHitLoop fetch price above start_ts stop_ts chunk fuel cursor saw
            = .ok (none, saw || s)) := by
  intro fuel
  induction fuel with
  | zero =>
    intro cursor saw L s hscan
    simp only [chunkScanCandles, Except.ok.injEq, Prod.mk.injEq] at hscan
    obtain ⟨rfl, rfl⟩ := hscan
    refine ⟨fun c hc => by simp at hc, fun _ => ?_⟩
    simp [firstHitLoop]
  | succ n ih =>
    intro cursor saw L s hscan
    simp only [chunkScanCandles] at hscan
    by_cases hcur : cursor < stop_ts
    · rw [if_pos hcur] at hscan
      cases hfetch : fetch cursor (min stop_ts (cursor + chunk)) with
      | error e => rw [hfetch] at hscan; cases hscan
      | ok candles =>
        rw [hfetch] at hscan
        cases hrec : chunkScanCandles fetch start_ts stop_ts chunk n
            (min stop_ts (cursor + chunk)) with
        | error e => rw [hrec] at hscan; cases hscan
        | ok pr =>
          obtain ⟨rest, saw_rest⟩ := pr
          rw [hrec] at hscan
          simp only [Except.ok.injEq, Prod.mk.injEq] at hscan
          obtain ⟨hL, hs⟩ := hscan
          have hunf :
              firstHitLoop fetch price above start_ts stop_ts chunk (n + 1)
                cursor saw
              = match (sortByTs candles).find?
                  (fun c => inRange start_ts stop_ts c && hitPred price above c) with
                | some c => .ok (some c.ts, saw || !candles.isEmpty)
                | none =>
                  firstHitLoop fetch price above start_ts stop_ts chunk n
                    (min stop_ts (cursor + chunk)) (saw || !candles.isEmpty) := by
            simp only [firstHitLoop]
            rw [if_pos hcur, hfetch]
          have hfc :
              (sortByTs candles).find?
                (fun c => inRange start_ts stop_ts c && hitPred price above c)
              = ((sortByTs candles).filter (inRange start_ts stop_ts)).find?
                  (hitPred price above) :=
            (find?_filter_eq _ _ _).symm
          have ihr := ih (min stop_ts (cursor + chunk)) (saw || !candles.isEmpty)
            rest saw_rest hrec
          cases hfind : ((sortByTs candles).filter (inRange start_ts stop_ts)).find?
              (hitPred price above) with
          | some c0 =>
            have hLfind : L.find? (hitPred price above) = some c0 := by
              rw [← hL, List.find?_append, hfind]
              rfl
            constructor
            · intro c hc
              rw [hLfind] at hc
              obtain rfl : c0 = c := by injection hc
              exact ⟨saw || !candles.isEmpty, by rw [hunf, hfc, hfind]⟩
            · intro hc
              rw [hLfind] at hc
              cases hc
          | none =>
            have hLfind : L.find? (hitPred price above)
                = rest.find? (hitPred price above) := by
              rw [← hL, List.find?_append, hfind]
              rfl
            constructor
            · intro c hc
              rw [hLfind] at hc
              obtain ⟨b, hb⟩ := ihr.1 c hc
              exact ⟨b, by rw [hunf, hfc, hfind]; exact hb⟩
            · intro hc
              rw [hLfind] at hc
              rw [hunf, hfc, hfind, ihr.2 hc, ← hs]
              rw [Bool.or_assoc]
    · rw [if_neg hcur] at hscan
      simp only [Except.ok.injEq, Prod.mk.injEq] at hscan
      obtain ⟨rfl, rfl⟩ := hscan
      refine ⟨fun c hc => by simp at hc, fun _ => ?_⟩
      simp only [firstHitLoop]
      rw [if_neg hcur, Bool.or_false]

/-- C8: for a non-empty window in which candle data is returned,
`_first_trigger_hit_timestamp` returns the timestamp of the first candle —
scanning chunks chronologically, each chunk's candles in ascending
timestamp order with out-of-window candles skipped — whose high crosses
the target upward (or low crosses it downward), and `None` when no
in-range candle crosses. -/
theorem first_trigger_scan_spec (spot : Except Unit ℚ)
    (fetch : ℤ → ℤ → Except Unit (List Candle)) (price : ℚ) (above : Bool)
    (start_ts stop_ts : ℤ) (hlt : start_ts < stop_ts) (L : List Candle)
    (hscan : chunkScanCandles fetch start_ts stop_ts
      (choose_granularity start_ts stop_ts * 300) (stop_ts - start_ts).toNat
      start_ts = .ok (L, true)) :
    first_trigger_hit_timestamp spot fetch price above start_ts stop_ts
      = .ok ((L.find? (hitPred price above)).map Candle.ts) := by
  have hmain := firstHitLoop_eq_chunkScan fetch price above start_ts stop_ts
    (choose_granularity start_ts stop_ts * 300) (stop_ts - start_ts).toNat
    start_ts false L true hscan
  unfold first_trigger_hit_timestamp
  rw [if_neg (by omega)]
  cases hfind : L.find? (hitPred price above) with
  | some c =>
    obtain ⟨b, hb⟩ := hmain.1 c hfind
    rw [hb]
    rfl
  | none =>
    rw [hmain.2 hfind]
    rfl

/-- C8 witness: the theorem instantiated on a single-chunk window [0,100]
whose lone candle (ts 5, low 10, high 20) crosses the upward target 15. -/
theorem first_trigger_scan_spec_witness :
    (0 : ℤ) < 100 ∧
    chunkScanCandles fetchOne 0 100 (choose_granularity 0 100 * 300)
      ((100 : ℤ) - 0).toNat 0
      = .ok ([{ ts := 5, low := 10, high := 20 }], true) ∧
    first_trigger_hit_timestamp (Except.ok 1) fetchOne 15 true 0 100
      = .ok (some 5) := by
  refine ⟨by decide, by decide, ?_⟩
  have h := first_trigger_scan_spec (Except.ok 1) fetchOne 15 true 0 100
    (by decide) [{ ts := 5, low := 10, high := 20 }] (by decide)
  rw [h]
  decide

/-- Helper: the serialized side string parses back to the direction it
came from. -/
theorem from_raw_value (s : Direction) :
    Direction.from_raw s.value = some s := by
  cases s <;> decide

/-- Helper: one position survives the dict round trip unchanged. -/
theorem position_from_to_dict (p : Position) :
    Position.from_dict (Position.to_dict p) = p := by
  cases p with
  | mk pid crypto side ts entry margin lev tp sl tpts slts =>
    simp [Position.to_dict, Position.from_dict, from_raw_value]

/-- Helper: a position list survives the dict round trip unchanged. -/
theorem map_from_to_dict (l : List Position) :
    l.map (Position.from_dict ∘ Position.to_dict) = l := by
  induction l with
  | nil => rfl
  | cons a t ih => simp [Function.comp_apply, position_from_to_dict, ih]

/-- Helper: one user record survives the dict round trip unchanged. -/
theorem user_from_to_dict (u : UserData) :
    UserData.from_dict (UserData.to_dict u) = u := by
  cases u with
  | mk usd positions orders =>
    simp [UserData.to_dict, UserData.from_dict, map_from_to_dict]

/-- Helper: the user map survives the dict round trip unchanged. -/
theorem map_user_from_to_dict (l : List (String × UserData)) :
    l.map ((fun e => (e.1, UserData.from_dict e.2)) ∘
      (fun e : String × UserData => (e.1, e.2.to_dict))) = l := by
  induction l with
  | nil => rfl
  | cons a t ih => simp [Function.comp_apply, user_from_to_dict, ih]

/-- C9: persisting the store document with `to_dict` and reloading it with
`from_dict` reproduces an identical state: the same usd balance per user,
and positions and orders equal field-for-field, including `take_profit`,
`stop_loss`, `tp_timestamp` and `stop_timestamp`. -/
theorem persist_round_trip (d : AppData) :
    AppData.from_dict (AppData.to_dict d) = d ∧
    (∀ p : Position,
      Position.from_dict (Position.to_dict p) = p ∧
      (Position.from_dict (Position.to_dict p)).take_profit = p.take_profit ∧
      (Position.from_dict (Position.to_dict p)).stop_loss = p.stop_loss ∧
      (Position.from_dict (Position.to_dict p)).tp_timestamp = p.tp_timestamp ∧
      (Position.from_dict (Position.to_dict p)).stop_timestamp
        = p.stop_timestamp) := by
  constructor
  · cases d with
    | mk users next_id =>
      simp [AppData.to_dict, AppData.from_dict, map_user_from_to_dict]
  · intro p
    have h := position_from_to_dict p
    exact ⟨h, by rw [h], by rw [h], by rw [h], by rw [h]⟩

end CryptoBot
